import Mathlib

/-!
Shallow embedding of the gm/ID design-point search and sizing engine of the
ihp-gmid-kit repository (tutorials/cs_amplifier/design_script.py and
src/ihp_gmid/design_charts.py), together with theorems settling the frozen
claims about it.

Modelling conventions:
* a numpy floating-point sample is modelled as `Option ℚ`: `none` stands for
  a non-finite value (NaN or ±infinity), `some q` for the finite value `q`
  (real arithmetic is modelled exactly over `ℚ`);
* a 2-D numpy array indexed by (length index, Vgs index) is a `List (List Sample)`;
* `np.argmin` / `np.argmax` return the first index achieving the extremum;
  fancy boolean-mask indexing (`row[valid]`) is modelled by computing the
  list of valid indices and mapping over it, which preserves order exactly.
-/

namespace IhpGmid

/-- One numpy floating-point sample: `none` models a non-finite value
(NaN or ±inf), `some q` a finite value. -/
abbrev Sample := Option ℚ

/-- Numeric value of a finite sample (defaulting to 0 for non-finite ones;
only ever read at indices known to be finite). -/
def sval (s : Sample) : ℚ := s.getD 0

/-- Validity mask of `analyze_gain_vs_length` (design_script.py line 125):
`np.isfinite(gmid_row) & np.isfinite(gain_row) & (gain_row > 0)`.
Note it requires finiteness of gm/ID but positivity only of the gain. -/
def rowValid (g a : Sample) : Bool :=
  match g, a with
  | some _, some av => decide (0 < av)
  | _, _ => false

/-- Validity mask of `find_operating_point` (design_script.py line 198):
`np.isfinite(gmid_row) & (gmid_row > 0)`. -/
def opValid (s : Sample) : Bool :=
  match s with
  | some v => decide (0 < v)
  | none => false

/-- Indices of the Vgs axis passing the `analyze_gain_vs_length` mask. -/
def validIdx (grow arow : List Sample) : List ℕ :=
  (List.range grow.length).filter (fun i => rowValid (grow.getD i none) (arow.getD i none))

/-- Indices of the Vgs axis passing the `find_operating_point` mask. -/
def opValidIdx (grow : List Sample) : List ℕ :=
  (List.range grow.length).filter (fun i => opValid (grow.getD i none))

/-- Fold underlying `np.argmin`: keeps the first pair achieving the least
second component (a strict comparison keeps the earlier candidate on ties,
exactly numpy's first-occurrence rule). -/
def argminAux (b : ℕ × ℚ) : List (ℕ × ℚ) → ℕ × ℚ
  | [] => b
  | p :: l => argminAux (if p.2 < b.2 then p else b) l

/-- `np.argmin` over an (index, value) list; `none` on the empty list, where
numpy raises. -/
def argminList : List (ℕ × ℚ) → Option (ℕ × ℚ)
  | [] => none
  | p :: l => some (argminAux p l)

/-- `np.argmax`, expressed through `argminList` on negated values (first
occurrence of the maximum = first occurrence of the minimum of negations). -/
def argmaxList (l : List (ℕ × ℚ)) : Option (ℕ × ℚ) :=
  (argminList (l.map (fun p => (p.1, -p.2)))).map (fun p => (p.1, -p.2))

/-- Absolute value as numpy computes it (`np.abs`). Definitionally an
`if`, so that concrete evaluations reduce; equal to Mathlib's `|·|` by
`qabs_eq_abs`. -/
def qabs (x : ℚ) : ℚ := if x < 0 then -x else x

theorem qabs_eq_abs (x : ℚ) : qabs x = |x| := by
  unfold qabs
  by_cases h : x < 0
  · rw [if_pos h, abs_of_neg h]
  · rw [if_neg h, abs_of_nonneg (le_of_not_lt h)]

/-- Absolute distances `|gmid_row[i] - ref|` attached to a list of valid
indices, in their list order (models `np.abs(gmid_row[valid] - ref)`). -/
def distPairs (idxs : List ℕ) (grow : List Sample) (ref : ℚ) : List (ℕ × ℚ) :=
  idxs.map (fun i => (i, qabs (sval (grow.getD i none) - ref)))

section ArgminLemmas

theorem argminAux_eq_or_mem (b : ℕ × ℚ) (l : List (ℕ × ℚ)) :
    argminAux b l = b ∨ argminAux b l ∈ l := by
  induction l generalizing b with
  | nil => exact Or.inl rfl
  | cons p t ih =>
    simp only [argminAux]
    rcases ih (if p.2 < b.2 then p else b) with h | h
    · rw [h]
      by_cases hc : p.2 < b.2
      · rw [if_pos hc]
        exact Or.inr (List.mem_cons_self p t)
      · rw [if_neg hc]
        exact Or.inl rfl
    · exact Or.inr (List.mem_cons_of_mem _ h)

theorem argminAux_le (b : ℕ × ℚ) (l : List (ℕ × ℚ)) :
    (argminAux b l).2 ≤ b.2 ∧ ∀ p ∈ l, (argminAux b l).2 ≤ p.2 := by
  induction l generalizing b with
  | nil =>
    refine ⟨le_refl _, ?_⟩
    intro p hp
    cases hp
  | cons q t ih =>
    simp only [argminAux]
    obtain ⟨h1, h2⟩ := ih (if q.2 < b.2 then q else b)
    have hb : (if q.2 < b.2 then q else b).2 ≤ b.2 := by
      by_cases hc : q.2 < b.2
      · rw [if_pos hc]; exact le_of_lt hc
      · rw [if_neg hc]
    have hq : (if q.2 < b.2 then q else b).2 ≤ q.2 := by
      by_cases hc : q.2 < b.2
      · rw [if_pos hc]
      · rw [if_neg hc]; exact le_of_not_lt hc
    refine ⟨le_trans h1 hb, ?_⟩
    intro p hp
    rcases List.mem_cons.mp hp with rfl | hm
    · exact le_trans h1 hq
    · exact h2 p hm

theorem argminAux_split (b : ℕ × ℚ) (l : List (ℕ × ℚ)) :
    ∃ l₁ l₂, b :: l = l₁ ++ argminAux b l :: l₂ ∧ ∀ q ∈ l₁, (argminAux b l).2 < q.2 := by
  induction l generalizing b with
  | nil =>
    refine ⟨[], [], rfl, ?_⟩
    intro q hq
    cases hq
  | cons p t ih =>
    simp only [argminAux]
    by_cases hc : p.2 < b.2
    · rw [if_pos hc]
      obtain ⟨l₁, l₂, heq, hlt⟩ := ih p
      refine ⟨b :: l₁, l₂, ?_, ?_⟩
      · rw [List.cons_append, ← heq]
      · intro q hq
        rcases List.mem_cons.mp hq with rfl | hm
        · exact lt_of_le_of_lt (argminAux_le p t).1 hc
        · exact hlt q hm
    · rw [if_neg hc]
      obtain ⟨l₁, l₂, heq, hlt⟩ := ih b
      cases l₁ with
      | nil =>
        rw [List.nil_append] at heq
        injection heq with h1 h2
        refine ⟨[], p :: t, ?_, ?_⟩
        · rw [List.nil_append, ← h1]
        · intro q hq
          cases hq
      | cons x l₁' =>
        rw [List.cons_append] at heq
        injection heq with h1 h2
        refine ⟨b :: p :: l₁', l₂, ?_, ?_⟩
        · rw [List.cons_append, List.cons_append]
          exact congrArg (fun s => b :: p :: s) h2
        · intro q hq
          have hxb : (argminAux b t).2 < b.2 := by
            have := hlt x (List.mem_cons_self x l₁')
            rw [← h1] at this
            exact this
          rcases List.mem_cons.mp hq with rfl | hq'
          · exact hxb
          · rcases List.mem_cons.mp hq' with rfl | hq''
            · exact lt_of_lt_of_le hxb (le_of_not_lt hc)
            · exact hlt q (List.mem_cons_of_mem x hq'')

theorem argminList_spec {l : List (ℕ × ℚ)} {r : ℕ × ℚ} (h : argminList l = some r) :
    r ∈ l ∧ (∀ p ∈ l, r.2 ≤ p.2) ∧ ∃ l₁ l₂, l = l₁ ++ r :: l₂ ∧ ∀ q ∈ l₁, r.2 < q.2 := by
  cases l with
  | nil => cases h
  | cons p t =>
    simp only [argminList] at h
    injection h with h
    subst h
    refine ⟨?_, ?_, argminAux_split p t⟩
    · rcases argminAux_eq_or_mem p t with h | h
      · rw [h]; exact List.mem_cons_self p t
      · exact List.mem_cons_of_mem _ h
    · intro q hq
      rcases List.mem_cons.mp hq with rfl | hm
      · exact (argminAux_le q t).1
      · exact (argminAux_le p t).2 q hm

theorem argminList_isSome {l : List (ℕ × ℚ)} (h : l ≠ []) :
    ∃ r, argminList l = some r := by
  cases l with
  | nil => exact absurd rfl h
  | cons p t => exact ⟨argminAux p t, rfl⟩

theorem argmaxList_spec {l : List (ℕ × ℚ)} {r : ℕ × ℚ} (h : argmaxList l = some r) :
    r ∈ l ∧ ∀ p ∈ l, p.2 ≤ r.2 := by
  unfold argmaxList at h
  cases hm : argminList (l.map (fun p => (p.1, -p.2))) with
  | none => rw [hm] at h; cases h
  | some q =>
    rw [hm] at h
    injection h with h
    have hr : r = (q.1, -q.2) := by rw [← h]
    subst hr
    obtain ⟨hmem, hle, -⟩ := argminList_spec hm
    obtain ⟨p, hp, hq⟩ := List.mem_map.mp hmem
    constructor
    · have hqp : (q.1, -q.2) = p := by
        rw [← hq]
        simp
      rw [hqp]
      exact hp
    · intro p' hp'
      have hle' := hle (p'.1, -p'.2) (List.mem_map_of_mem _ hp')
      simp only at hle'
      simp only
      linarith

theorem argmaxList_isSome {l : List (ℕ × ℚ)} (h : l ≠ []) :
    ∃ r, argmaxList l = some r := by
  have hm : l.map (fun p => (p.1, -p.2)) ≠ [] := by
    intro hcon
    exact h (List.map_eq_nil_iff.mp hcon)
  obtain ⟨r, hr⟩ := argminList_isSome hm
  refine ⟨(r.1, -r.2), ?_⟩
  rw [argmaxList, hr]
  rfl

end ArgminLemmas

/-! ## Data model: the extracted lookup table and the engine's record types -/

/-- Derived-quantity arrays extracted for one device at the fixed (Vds, Vbs)
bias point, indexed by (length index, Vgs index), as produced by
`evaluate_expression` on `nmos.extracted_table` in design_script.py. -/
structure MosTable where
  lengths : List ℚ
  vgs : List ℚ
  gmid : List (List Sample)
  gain : List (List Sample)
  id_w : List (List Sample)
  ft : List (List Sample)

/-- Row of the gm/ID array at one length index. -/
def gmidRow (tbl : MosTable) (i : ℕ) : List Sample := tbl.gmid.getD i []

/-- Row of the intrinsic-gain array at one length index. -/
def gainRow (tbl : MosTable) (i : ℕ) : List Sample := tbl.gain.getD i []

/-- Reference gm/ID constant hard-coded in the length-selection step
(design_script.py line 132: `np.argmin(np.abs(gmid_row[valid] - 10))`). -/
def reference_gmid : ℚ := 10

/-- Index selected by `np.argmin(np.abs(gmid_row[valid] - ref))`, translated
back to a Vgs-axis index (compacted positions map back through `validIdx`
in order). `none` when no sample passes the mask. -/
def refIdxRow (grow arow : List Sample) (ref : ℚ) : Option ℕ :=
  (argminList (distPairs (validIdx grow arow) grow ref)).map (fun p => p.1)

/-- Reference-point gain of one length: `gain_row[valid][idx_10]` when some
sample passes the mask, else the literal `0` appended by the source
(design_script.py lines 130-135). -/
def gainAtRefRow (grow arow : List Sample) : ℚ :=
  match refIdxRow grow arow reference_gmid with
  | some j => sval (arow.getD j none)
  | none => 0

/-- Per-length maximum gain: `np.max(gain_row[valid]) if np.any(valid) else 0`
(design_script.py line 128). -/
def maxGainRow (grow arow : List Sample) : ℚ :=
  match ((validIdx grow arow).map (fun i => sval (arow.getD i none))).max? with
  | some m => m
  | none => 0

/-- Result lists built by `analyze_gain_vs_length` (design_script.py
lines 108-137), one entry per channel length. -/
structure AnalysisResults where
  lengths : List ℚ
  max_gains : List ℚ
  gain_at_gmid_10 : List ℚ

/-- Embedding of `analyze_gain_vs_length`: the source's per-length loop of
appends is expressed as maps over the length indices. -/
def analyze_gain_vs_length (tbl : MosTable) : AnalysisResults :=
  { lengths := tbl.lengths
  , max_gains :=
      (List.range tbl.lengths.length).map (fun i => maxGainRow (gmidRow tbl i) (gainRow tbl i))
  , gain_at_gmid_10 :=
      (List.range tbl.lengths.length).map (fun i => gainAtRefRow (gmidRow tbl i) (gainRow tbl i)) }

/-- Justification string returned by `select_optimal_length`: the source
formats one of two f-string templates with distinct fixed leading text
(so the two outcomes are distinguishable); they are modelled as the two
constructors, carrying the interpolated numeric values. -/
inductive Justification where
  | fallback (target_gain L : ℚ)
  | met (L gain target_gain : ℚ)
deriving DecidableEq

/-- Triples `(L, i, gain)` collected by the loop of `select_optimal_length`
(design_script.py lines 154-157): one per length whose reference-point gain
meets the floor, in length-index order. -/
def suitableList (tbl : MosTable) (target_gain : ℚ) : List (ℚ × ℕ × ℚ) :=
  (((analyze_gain_vs_length tbl).lengths.zip
      (analyze_gain_vs_length tbl).gain_at_gmid_10).enum.filter
    (fun p => decide (target_gain ≤ p.2.2))).map (fun p => (p.2.1, p.1, p.2.2))

/-- Embedding of `select_optimal_length` (design_script.py lines 140-171):
if no length qualifies, fall back to `np.argmax` over the per-length max
gains (`none` models the numpy error on an empty length axis); otherwise
stable-sort the suitable triples by length and take the first. -/
def select_optimal_length (tbl : MosTable) (target_gain : ℚ) : Option (ℚ × ℕ × Justification) :=
  match suitableList tbl target_gain with
  | [] =>
    match argmaxList (analyze_gain_vs_length tbl).max_gains.enum with
    | none => none
    | some bp =>
      some ((analyze_gain_vs_length tbl).lengths.getD bp.1 0, bp.1,
        Justification.fallback target_gain ((analyze_gain_vs_length tbl).lengths.getD bp.1 0))
  | s :: rest =>
    match (s :: rest).mergeSort (fun x y => decide (x.1 ≤ y.1)) with
    | [] => none
    | q :: _ => some (q.1, q.2.1, Justification.met q.1 q.2.2 target_gain)

/-- Operating-point record returned by `find_operating_point`
(design_script.py lines 205-214): every derived quantity is read at the one
selected Vgs index `vgs_idx` of the selected length row. -/
structure OperatingPoint where
  L : ℚ
  L_idx : ℕ
  VGS : ℚ
  gmid : Sample
  gain : Sample
  id_w : Sample
  ft : Sample
  vgs_idx : ℕ
deriving DecidableEq

/-- Embedding of `find_operating_point` (design_script.py lines 174-214):
nearest-neighbour search for the target gm/ID over the admissible samples
(finite and strictly positive gm/ID) of the selected length row. `none`
models the numpy error raised when no sample is admissible. -/
def find_operating_point (tbl : MosTable) (L_idx : ℕ) (target_gmid : ℚ) : Option OperatingPoint :=
  match argminList (distPairs (opValidIdx (tbl.gmid.getD L_idx []))
      (tbl.gmid.getD L_idx []) target_gmid) with
  | none => none
  | some p =>
    some { L := tbl.lengths.getD L_idx 0
         , L_idx := L_idx
         , VGS := tbl.vgs.getD p.1 0
         , gmid := (tbl.gmid.getD L_idx []).getD p.1 none
         , gain := (tbl.gain.getD L_idx []).getD p.1 none
         , id_w := (tbl.id_w.getD L_idx []).getD p.1 none
         , ft := (tbl.ft.getD L_idx []).getD p.1 none
         , vgs_idx := p.1 }

/-! ## Dimension synthesis -/

/-- Design specifications (the `DesignSpecs` class constants become fields,
so the arithmetic of `calculate_dimensions` is stated for every
specification as the spec demands). -/
structure DesignSpecs where
  VDD : ℚ
  AV_MIN : ℚ
  BW_MIN : ℚ
  CL : ℚ
  VDS_OP : ℚ
  VBS : ℚ
deriving DecidableEq

/-- Constants of the `DesignSpecs` class in design_script.py lines 61-70
(BW = 100e6 Hz, CL = 100e-15 F). -/
def designSpecsDefault : DesignSpecs :=
  { VDD := 12/10, AV_MIN := 10, BW_MIN := 100000000, CL := 1/10000000000000
  , VDS_OP := 6/10, VBS := 0 }

/-- Value of the IEEE-754 double constant `np.pi` as an exact rational
(numpy performs no symbolic arithmetic; this is the double nearest π). -/
def np_pi : ℚ := 884279719003555 / 281474976710656

/-- Floating-point division on samples. A finite divided by zero yields a
non-finite value (±inf or NaN), and a non-finite numerator propagates
through division by anything, exactly as in IEEE arithmetic; those are the
only cases the theorems below rely on. (The remaining IEEE case, a finite
numerator over a non-finite divisor, is not exercised by any claim.) -/
def fdiv (x y : Sample) : Sample :=
  match x, y with
  | some a, some b => if b = 0 then none else some (a / b)
  | _, _ => none

/-- Sizing result of `calculate_dimensions` (design_script.py lines 248-257).
The `expected_gain_db` entry is a presentation-only logarithm referenced by
no claim and is not modelled. -/
structure DesignResult where
  gm_required : ℚ
  id_required : Sample
  w_required : Sample
  expected_gain : Sample
  ft_margin : Sample
  L : ℚ
  VGS : ℚ
deriving DecidableEq

/-- Embedding of `calculate_dimensions` (design_script.py lines 221-257):
pure scalar arithmetic on the operating point, with no validity check on
the divisors. -/
def calculate_dimensions (specs : DesignSpecs) (op : OperatingPoint) : DesignResult :=
  let gm_required : ℚ := 2 * np_pi * specs.BW_MIN * specs.CL
  { gm_required := gm_required
  , id_required := fdiv (some gm_required) op.gmid
  , w_required := fdiv (fdiv (some gm_required) op.gmid) op.id_w
  , expected_gain := op.gain
  , ft_margin := if 0 < specs.BW_MIN then fdiv op.ft (some specs.BW_MIN) else some 0
  , L := op.L
  , VGS := op.VGS }

/-! ## Chart statistics -/

/-- Admissible (finite and strictly positive) values of a whole 2-D array,
flattened: models `data[np.isfinite(data) & (data > 0)]`. -/
def admissibleVals (data : List (List Sample)) : List ℚ :=
  data.flatten.filterMap (fun s =>
    match s with
    | some v => if 0 < v then some v else none
    | none => none)

/-- Statistics extracted by `extract_chart_statistics` (design_charts.py
lines 156-177); `none` models the numpy error on an empty admissible set.
The `gain_max_db` entry is a presentation-only logarithm referenced by no
claim and is not modelled. -/
structure ChartStats where
  gmid_min : Option ℚ
  gmid_max : Option ℚ
  ft_max : Option ℚ
  gain_max : Option ℚ
deriving DecidableEq

/-- Embedding of `extract_chart_statistics`: min/max reductions over the
admissible samples of each derived-quantity array. -/
def extract_chart_statistics (tbl : MosTable) : ChartStats :=
  { gmid_min := (admissibleVals tbl.gmid).min?
  , gmid_max := (admissibleVals tbl.gmid).max?
  , ft_max := (admissibleVals tbl.ft).max?
  , gain_max := (admissibleVals tbl.gain).max? }

/-! ## Characterization lemmas -/

section RowLemmas

theorem rowValid_iff {g a : Sample} :
    rowValid g a = true ↔ (∃ gv, g = some gv) ∧ ∃ av, a = some av ∧ 0 < av := by
  cases g <;> cases a <;> simp [rowValid]

theorem opValid_iff {s : Sample} :
    opValid s = true ↔ ∃ v, s = some v ∧ 0 < v := by
  cases s <;> simp [opValid]

theorem mem_validIdx {grow arow : List Sample} {i : ℕ} :
    i ∈ validIdx grow arow ↔
      i < grow.length ∧ rowValid (grow.getD i none) (arow.getD i none) = true := by
  simp [validIdx, List.mem_filter, List.mem_range]

theorem mem_opValidIdx {grow : List Sample} {i : ℕ} :
    i ∈ opValidIdx grow ↔ i < grow.length ∧ opValid (grow.getD i none) = true := by
  simp [opValidIdx, List.mem_filter, List.mem_range]

theorem validIdx_pairwise (grow arow : List Sample) :
    (validIdx grow arow).Pairwise (· < ·) :=
  List.Pairwise.filter _ (List.pairwise_lt_range _)

theorem opValidIdx_pairwise (grow : List Sample) :
    (opValidIdx grow).Pairwise (· < ·) :=
  List.Pairwise.filter _ (List.pairwise_lt_range _)

/-- Specification of `np.argmin(np.abs(grow[idxs] - ref))` over an
ascending index list: the result is a valid index whose distance to the
reference is minimal, and strictly smaller than the distance of any
earlier valid index (numpy's first-occurrence tie-break). -/
theorem argmin_dist_spec {idxs : List ℕ} (hpw : idxs.Pairwise (· < ·))
    {grow : List Sample} {ref : ℚ} {r : ℕ × ℚ}
    (h : argminList (distPairs idxs grow ref) = some r) :
    r.1 ∈ idxs ∧ r.2 = qabs (sval (grow.getD r.1 none) - ref) ∧
    (∀ j ∈ idxs, r.2 ≤ qabs (sval (grow.getD j none) - ref)) ∧
    (∀ j ∈ idxs, j < r.1 → r.2 < qabs (sval (grow.getD j none) - ref)) := by
  obtain ⟨hmem, hle, l₁, l₂, heq, hstrict⟩ := argminList_spec h
  obtain ⟨i, hi, hri⟩ := List.mem_map.mp hmem
  have hr1 : r.1 = i := by rw [← hri]
  have hr2 : r.2 = qabs (sval (grow.getD r.1 none) - ref) := by
    rw [← hri]
  have hpw2 : (distPairs idxs grow ref).Pairwise (fun p q : ℕ × ℚ => p.1 < q.1) := by
    refine List.Pairwise.map _ ?_ hpw
    intro a b hab
    exact hab
  refine ⟨hr1 ▸ hi, hr2, ?_, ?_⟩
  · intro j hj
    have := hle (j, qabs (sval (grow.getD j none) - ref))
      (List.mem_map_of_mem _ hj)
    rw [hr2] at this
    rw [hr2]
    exact this
  · intro j hj hlt
    rw [heq] at hpw2
    obtain ⟨hp1, hp2, hcross⟩ := List.pairwise_append.mp hpw2
    have hjmem : (j, qabs (sval (grow.getD j none) - ref)) ∈ l₁ ++ r :: l₂ := by
      rw [← heq]
      exact List.mem_map_of_mem _ hj
    rcases List.mem_append.mp hjmem with hin1 | hin2
    · have := hstrict _ hin1
      rw [hr2] at this
      rw [hr2]
      exact this
    · rcases List.mem_cons.mp hin2 with heq2 | hin2'
      · exfalso
        have : j = r.1 := by rw [← heq2]
        omega
      · exfalso
        have := (List.pairwise_cons.mp hp2).1 _ hin2'
        simp only at this
        omega

/-- Existence direction: a nonempty index list yields an argmin result. -/
theorem argmin_dist_isSome {idxs : List ℕ} (h : idxs ≠ [])
    (grow : List Sample) (ref : ℚ) :
    ∃ r, argminList (distPairs idxs grow ref) = some r := by
  apply argminList_isSome
  intro hcon
  exact h (List.map_eq_nil_iff.mp hcon)

end RowLemmas

section EngineLemmas

theorem analysis_lengths (tbl : MosTable) :
    (analyze_gain_vs_length tbl).lengths = tbl.lengths := rfl

theorem gain_at_length (tbl : MosTable) :
    (analyze_gain_vs_length tbl).gain_at_gmid_10.length = tbl.lengths.length := by
  simp [analyze_gain_vs_length]

theorem max_gains_length (tbl : MosTable) :
    (analyze_gain_vs_length tbl).max_gains.length = tbl.lengths.length := by
  simp [analyze_gain_vs_length]

theorem gain_at_getElem? {tbl : MosTable} {i : ℕ} (h : i < tbl.lengths.length) :
    (analyze_gain_vs_length tbl).gain_at_gmid_10[i]? =
      some (gainAtRefRow (gmidRow tbl i) (gainRow tbl i)) := by
  simp [analyze_gain_vs_length, List.getElem?_range h]

theorem max_gains_getElem? {tbl : MosTable} {i : ℕ} (h : i < tbl.lengths.length) :
    (analyze_gain_vs_length tbl).max_gains[i]? =
      some (maxGainRow (gmidRow tbl i) (gainRow tbl i)) := by
  simp [analyze_gain_vs_length, List.getElem?_range h]

theorem refIdxRow_isSome {grow arow : List Sample} (h : validIdx grow arow ≠ []) (ref : ℚ) :
    ∃ j, refIdxRow grow arow ref = some j := by
  obtain ⟨r, hr⟩ := argmin_dist_isSome h grow ref
  refine ⟨r.1, ?_⟩
  rw [refIdxRow, hr]
  rfl

theorem refIdxRow_spec {grow arow : List Sample} {ref : ℚ} {j : ℕ}
    (h : refIdxRow grow arow ref = some j) :
    j ∈ validIdx grow arow ∧
    (∀ i ∈ validIdx grow arow,
      qabs (sval (grow.getD j none) - ref) ≤ qabs (sval (grow.getD i none) - ref)) ∧
    (∀ i ∈ validIdx grow arow, i < j →
      qabs (sval (grow.getD j none) - ref) < qabs (sval (grow.getD i none) - ref)) := by
  unfold refIdxRow at h
  cases hm : argminList (distPairs (validIdx grow arow) grow ref) with
  | none => rw [hm] at h; cases h
  | some r =>
    rw [hm] at h
    injection h with h
    obtain ⟨h1, h2, h3, h4⟩ := argmin_dist_spec (validIdx_pairwise grow arow) hm
    subst h
    refine ⟨h1, ?_, ?_⟩
    · intro i hi
      have := h3 i hi
      rw [h2] at this
      exact this
    · intro i hi hlt
      have := h4 i hi hlt
      rw [h2] at this
      exact this

theorem gainAtRefRow_eq_of_some {grow arow : List Sample} {j : ℕ}
    (h : refIdxRow grow arow reference_gmid = some j) :
    gainAtRefRow grow arow = sval (arow.getD j none) := by
  unfold gainAtRefRow
  rw [h]

theorem find_op_isSome {tbl : MosTable} {L_idx : ℕ} (t : ℚ)
    (h : opValidIdx (tbl.gmid.getD L_idx []) ≠ []) :
    ∃ op, find_operating_point tbl L_idx t = some op := by
  obtain ⟨r, hr⟩ := argmin_dist_isSome h (tbl.gmid.getD L_idx []) t
  unfold find_operating_point
  rw [hr]
  exact ⟨_, rfl⟩

theorem find_op_spec {tbl : MosTable} {L_idx : ℕ} {t : ℚ} {op : OperatingPoint}
    (h : find_operating_point tbl L_idx t = some op) :
    op.vgs_idx ∈ opValidIdx (tbl.gmid.getD L_idx []) ∧
    op.L = tbl.lengths.getD L_idx 0 ∧ op.L_idx = L_idx ∧
    op.VGS = tbl.vgs.getD op.vgs_idx 0 ∧
    op.gmid = (tbl.gmid.getD L_idx []).getD op.vgs_idx none ∧
    op.gain = (tbl.gain.getD L_idx []).getD op.vgs_idx none ∧
    op.id_w = (tbl.id_w.getD L_idx []).getD op.vgs_idx none ∧
    op.ft = (tbl.ft.getD L_idx []).getD op.vgs_idx none ∧
    (∀ j ∈ opValidIdx (tbl.gmid.getD L_idx []),
      qabs (sval ((tbl.gmid.getD L_idx []).getD op.vgs_idx none) - t)
        ≤ qabs (sval ((tbl.gmid.getD L_idx []).getD j none) - t)) ∧
    (∀ j ∈ opValidIdx (tbl.gmid.getD L_idx []), j < op.vgs_idx →
      qabs (sval ((tbl.gmid.getD L_idx []).getD op.vgs_idx none) - t)
        < qabs (sval ((tbl.gmid.getD L_idx []).getD j none) - t)) := by
  unfold find_operating_point at h
  cases hm : argminList (distPairs (opValidIdx (tbl.gmid.getD L_idx []))
      (tbl.gmid.getD L_idx []) t) with
  | none => rw [hm] at h; cases h
  | some r =>
    rw [hm] at h
    injection h with h
    obtain ⟨h1, h2, h3, h4⟩ := argmin_dist_spec (opValidIdx_pairwise _) hm
    subst h
    refine ⟨h1, rfl, rfl, rfl, rfl, rfl, rfl, rfl, ?_, ?_⟩
    · intro j hj
      have := h3 j hj
      rw [h2] at this
      exact this
    · intro j hj hlt
      have := h4 j hj hlt
      rw [h2] at this
      exact this

theorem max?_spec {l : List ℚ} {m : ℚ} (h : l.max? = some m) :
    m ∈ l ∧ ∀ b ∈ l, b ≤ m :=
  ⟨List.max?_mem (fun a b => max_choice a b) h,
   (List.max?_le_iff (fun _ _ _ => max_le_iff) h).mp (le_refl m)⟩

theorem min?_spec {l : List ℚ} {m : ℚ} (h : l.min? = some m) :
    m ∈ l ∧ ∀ b ∈ l, m ≤ b :=
  ⟨List.min?_mem (fun a b => min_choice a b) h,
   (List.le_min?_iff (fun _ _ _ => le_min_iff) h).mp (le_refl m)⟩

theorem maxGainRow_spec {grow arow : List Sample} (h : validIdx grow arow ≠ []) :
    (∃ j ∈ validIdx grow arow, maxGainRow grow arow = sval (arow.getD j none)) ∧
    ∀ i ∈ validIdx grow arow, sval (arow.getD i none) ≤ maxGainRow grow arow := by
  have hne : (validIdx grow arow).map (fun i => sval (arow.getD i none)) ≠ [] := by
    intro hcon
    exact h (List.map_eq_nil_iff.mp hcon)
  cases hm : ((validIdx grow arow).map (fun i => sval (arow.getD i none))).max? with
  | none =>
    rw [List.max?_eq_none_iff] at hm
    exact absurd hm hne
  | some m =>
    obtain ⟨hmem, hub⟩ := max?_spec hm
    obtain ⟨j, hj, hjm⟩ := List.mem_map.mp hmem
    have hval : maxGainRow grow arow = m := by
      unfold maxGainRow
      rw [hm]
    constructor
    · refine ⟨j, hj, ?_⟩
      rw [hval, ← hjm]
    · intro i hi
      rw [hval]
      exact hub _ (List.mem_map_of_mem _ hi)

theorem mem_admissibleVals {data : List (List Sample)} {v : ℚ} :
    v ∈ admissibleVals data ↔ some v ∈ data.flatten ∧ 0 < v := by
  unfold admissibleVals
  rw [List.mem_filterMap]
  constructor
  · rintro ⟨s, hs, hf⟩
    cases s with
    | none => cases hf
    | some w =>
      have hf2 : (if 0 < w then some w else none) = some v := hf
      by_cases hw : 0 < w
      · rw [if_pos hw] at hf2
        injection hf2 with hf2
        subst hf2
        exact ⟨hs, hw⟩
      · rw [if_neg hw] at hf2
        cases hf2
  · rintro ⟨hs, hv⟩
    refine ⟨some v, hs, ?_⟩
    show (if 0 < v then some v else none) = some v
    rw [if_pos hv]

theorem mem_suitableList {tbl : MosTable} {target : ℚ} {L : ℚ} {i : ℕ} {g : ℚ} :
    (L, i, g) ∈ suitableList tbl target ↔
      tbl.lengths[i]? = some L ∧
      (analyze_gain_vs_length tbl).gain_at_gmid_10[i]? = some g ∧
      target ≤ g := by
  unfold suitableList
  rw [List.mem_map]
  constructor
  · rintro ⟨p, hp, hpe⟩
    rw [List.mem_filter] at hp
    obtain ⟨hmem, hcond⟩ := hp
    obtain ⟨i', L', g'⟩ := p
    simp only [Prod.mk.injEq] at hpe
    obtain ⟨he1, he2, he3⟩ := hpe
    subst he1
    subst he2
    subst he3
    rw [List.mk_mem_enum_iff_getElem?] at hmem
    rw [List.getElem?_zip_eq_some] at hmem
    obtain ⟨hL, hg⟩ := hmem
    refine ⟨hL, hg, ?_⟩
    exact of_decide_eq_true hcond
  · rintro ⟨hL, hg, ht⟩
    refine ⟨(i, L, g), ?_, rfl⟩
    rw [List.mem_filter]
    constructor
    · rw [List.mk_mem_enum_iff_getElem?, List.getElem?_zip_eq_some]
      exact ⟨hL, hg⟩
    · exact decide_eq_true ht

end EngineLemmas

/-! ## Claim theorems -/

/-- Division of a finite float by zero yields a non-finite value. -/
theorem fdiv_zero (x : Sample) : fdiv x (some 0) = none := by
  cases x with
  | none => rfl
  | some a =>
    show (if (0:ℚ) = 0 then none else some (a / 0)) = none
    rw [if_pos rfl]

/-- A non-finite numerator propagates through division. -/
theorem fdiv_none_left (y : Sample) : fdiv none y = none := by
  cases y <;> rfl

/-- Fixture for claim C9: one length whose gm/ID row holds the two values
10 and 100, with distinct gains, separating the two candidate reference
constants behaviourally. -/
def tblC9 : MosTable :=
  { lengths := [45/100000000], vgs := [3/10, 2/5]
  , gmid := [[some 10, some 100]], gain := [[some 7, some 8]]
  , id_w := [[some 1, some 1]], ft := [[some 1, some 1]] }

/-- C9 counterexample: the reference gm/ID constant hard-coded in the
length-selection step is not 100 S/A; on a row holding gm/ID values 10 and
100, the code's argmin selects index 0 (the sample at 10), whereas a
100 S/A reference would select index 1. -/
theorem c9_counterexample :
    reference_gmid ≠ 100 ∧
    refIdxRow [some 10, some 100] [some 7, some 8] reference_gmid = some 0 ∧
    refIdxRow [some 10, some 100] [some 7, some 8] 100 = some 1 := by
  refine ⟨by decide, ?_, ?_⟩
  · norm_num [refIdxRow, reference_gmid, distPairs, validIdx, rowValid, argminList,
      argminAux, qabs, sval, List.filter]
  · norm_num [refIdxRow, distPairs, validIdx, rowValid, argminList,
      argminAux, qabs, sval, List.filter]

/-- C9 amended: the reference gm/ID value hard-coded in the source's
length-selection step equals 10 S/A; accordingly, on the fixture row the
recorded reference-point gain is the gain at the sample whose gm/ID is 10. -/
theorem c9_amended :
    reference_gmid = 10 ∧
    (analyze_gain_vs_length tblC9).gain_at_gmid_10 = [7] := by
  refine ⟨rfl, ?_⟩
  norm_num [analyze_gain_vs_length, tblC9, gainAtRefRow, refIdxRow, reference_gmid,
    distPairs, validIdx, rowValid, argminList, argminAux, qabs, sval, gmidRow, gainRow,
    List.filter, List.range, List.range.loop]

/-- Fixture for claim C7: the spec's synthetic gm/ID row [2, 5, 9, 11, 15]
at the single length index 0. -/
def tblC7 : MosTable :=
  { lengths := [13/100000]
  , vgs := [3/10, 4/10, 1/2, 3/5, 7/10]
  , gmid := [[some 2, some 5, some 9, some 11, some 15]]
  , gain := [[some 30, some 31, some 32, some 33, some 34]]
  , id_w := [[some 50, some 50, some 50, some 50, some 50]]
  , ft := [[some 1, some 1, some 1, some 1, some 1]] }

/-- C7 counterexample: on the row [2, 5, 9, 11, 15] with target 10, bias
selection does not return index 3 — the distances of 9 and 11 to the
target are exactly tied at 1, and the argmin takes the first occurrence. -/
theorem c7_counterexample :
    (find_operating_point tblC7 0 10).map (fun op => op.vgs_idx) ≠ some 3 := by
  norm_num [find_operating_point, tblC7, distPairs, opValidIdx, opValid, argminList,
    argminAux, qabs, sval, List.filter]

/-- C7 amended: on the row [2, 5, 9, 11, 15] with target 10, bias selection
returns index 2 (value 9): |9 - 10| = |11 - 10| = 1 exactly, and the
first-occurrence tie-break of the argmin picks the earlier index. -/
theorem c7_amended :
    (find_operating_point tblC7 0 10).map (fun op => op.vgs_idx) = some 2 := by
  norm_num [find_operating_point, tblC7, distPairs, opValidIdx, opValid, argminList,
    argminAux, qabs, sval, List.filter]

/-- Fixture for claim C8: a single length all of whose samples are
non-finite. -/
def tblC8 : MosTable :=
  { lengths := [13/100000], vgs := [3/10]
  , gmid := [[none]], gain := [[none]], id_w := [[none]], ft := [[none]] }

/-- C8 counterexample: a length with no admissible sample is recorded in
the analysis results with the literal number 0 for both its maximum gain
and its reference-point gain — no distinct empty-table failure is
surfaced, contradicting the claim. -/
theorem c8_counterexample :
    validIdx (gmidRow tblC8 0) (gainRow tblC8 0) = [] ∧
    (analyze_gain_vs_length tblC8).gain_at_gmid_10 = [0] ∧
    (analyze_gain_vs_length tblC8).max_gains = [0] := by
  refine ⟨by decide, by decide, by decide⟩

/-- C8 amended: when every sample at a given length is inadmissible,
`analyze_gain_vs_length` does not fail and surfaces no distinct error — it
records the number 0 for both the max gain and the reference-point gain of
that length, indistinguishable from a genuine zero value. -/
theorem c8_amended (tbl : MosTable) (l : ℕ) (hl : l < tbl.lengths.length)
    (hinv : validIdx (gmidRow tbl l) (gainRow tbl l) = []) :
    (analyze_gain_vs_length tbl).max_gains[l]? = some 0 ∧
    (analyze_gain_vs_length tbl).gain_at_gmid_10[l]? = some 0 := by
  rw [max_gains_getElem? hl, gain_at_getElem? hl]
  constructor
  · have hz : maxGainRow (gmidRow tbl l) (gainRow tbl l) = 0 := by
      unfold maxGainRow
      rw [hinv]
      rfl
    rw [hz]
  · have hz : gainAtRefRow (gmidRow tbl l) (gainRow tbl l) = 0 := by
      unfold gainAtRefRow refIdxRow
      rw [hinv]
      rfl
    rw [hz]

/-- C8 witness: the amended statement evaluated on the all-invalid fixture. -/
theorem c8_witness :
    (analyze_gain_vs_length tblC8).max_gains[0]? = some 0 ∧
    (analyze_gain_vs_length tblC8).gain_at_gmid_10[0]? = some 0 :=
  c8_amended tblC8 0 (by decide) (by decide)

/-- Fixture for claim C4: an operating point whose gm/ID is exactly zero. -/
def opC4 : OperatingPoint :=
  { L := 13/100000, L_idx := 0, VGS := 1/2, gmid := some 0, gain := some 30
  , id_w := some 50, ft := some 1000000000, vgs_idx := 0 }

/-- C4 counterexample: at an operating point with zero gm/ID,
`calculate_dimensions` does not reject the request — it divides anyway and
returns a result whose required width is non-finite (the infinite width
the claim says is prevented). -/
theorem c4_counterexample :
    opC4.gmid = some 0 ∧
    (calculate_dimensions designSpecsDefault opC4).w_required = none := by
  refine ⟨rfl, by decide⟩

/-- C4 amended: for every operating point whose gm/ID or current density
equals zero, `calculate_dimensions` performs the division anyway and
returns a result whose required width is non-finite; no typed failure is
raised (the function is total and always returns a `DesignResult`). -/
theorem c4_amended (specs : DesignSpecs) (op : OperatingPoint)
    (h : op.gmid = some 0 ∨ op.id_w = some 0) :
    (calculate_dimensions specs op).w_required = none := by
  rcases h with h | h
  · have h1 : fdiv (some (2 * np_pi * specs.BW_MIN * specs.CL)) op.gmid = none := by
      rw [h]
      exact fdiv_zero _
    show fdiv (fdiv (some (2 * np_pi * specs.BW_MIN * specs.CL)) op.gmid) op.id_w = none
    rw [h1]
    exact fdiv_none_left _
  · show fdiv (fdiv (some (2 * np_pi * specs.BW_MIN * specs.CL)) op.gmid) op.id_w = none
    rw [h]
    exact fdiv_zero _

/-- C4 witness: the amended statement evaluated at the zero-gm/ID fixture. -/
theorem c4_witness :
    (calculate_dimensions designSpecsDefault opC4).w_required = none :=
  c4_amended designSpecsDefault opC4 (Or.inl rfl)

/-- C3: for every specification and operating point with finite nonzero
gm/ID and current density and finite fT, dimension synthesis computes
gm_required = 2·π·BW·CL (π being the numpy double constant), drain current
gm_required/(gm/ID), width Id_required/(Id/W), passes the gain through
unchanged, and reports the transit-frequency margin fT/BW. -/
theorem c3_dimension_synthesis (specs : DesignSpecs) (op : OperatingPoint)
    (g w f : ℚ) (hg : op.gmid = some g) (hg0 : g ≠ 0)
    (hw : op.id_w = some w) (hw0 : w ≠ 0)
    (hf : op.ft = some f) (hbw : 0 < specs.BW_MIN) :
    (calculate_dimensions specs op).gm_required = 2 * np_pi * specs.BW_MIN * specs.CL ∧
    (calculate_dimensions specs op).id_required
      = some (2 * np_pi * specs.BW_MIN * specs.CL / g) ∧
    (calculate_dimensions specs op).w_required
      = some (2 * np_pi * specs.BW_MIN * specs.CL / g / w) ∧
    (calculate_dimensions specs op).expected_gain = op.gain ∧
    (calculate_dimensions specs op).ft_margin = some (f / specs.BW_MIN) := by
  refine ⟨rfl, ?_, ?_, rfl, ?_⟩
  · show fdiv (some (2 * np_pi * specs.BW_MIN * specs.CL)) op.gmid = _
    rw [hg]
    show (if g = 0 then none else some (2 * np_pi * specs.BW_MIN * specs.CL / g)) = _
    rw [if_neg hg0]
  · show fdiv (fdiv (some (2 * np_pi * specs.BW_MIN * specs.CL)) op.gmid) op.id_w = _
    rw [hg, hw]
    show fdiv (if g = 0 then none else some (2 * np_pi * specs.BW_MIN * specs.CL / g))
        (some w) = _
    rw [if_neg hg0]
    show (if w = 0 then none else some (2 * np_pi * specs.BW_MIN * specs.CL / g / w)) = _
    rw [if_neg hw0]
  · show (if 0 < specs.BW_MIN then fdiv op.ft (some specs.BW_MIN) else some 0) = _
    rw [if_pos hbw, hf]
    show (if specs.BW_MIN = 0 then none else some (f / specs.BW_MIN)) = _
    rw [if_neg (ne_of_gt hbw)]

/-- Fixture for the C3 witness: a well-formed operating point. -/
def opC3w : OperatingPoint :=
  { L := 13/100000, L_idx := 0, VGS := 1/2, gmid := some 10, gain := some 30
  , id_w := some 50, ft := some 1000000000, vgs_idx := 3 }

/-- C3 witness: the synthesis formulas evaluated at a concrete operating
point under the default specification constants. -/
theorem c3_witness :
    (calculate_dimensions designSpecsDefault opC3w).gm_required
      = 2 * np_pi * designSpecsDefault.BW_MIN * designSpecsDefault.CL ∧
    (calculate_dimensions designSpecsDefault opC3w).id_required
      = some (2 * np_pi * designSpecsDefault.BW_MIN * designSpecsDefault.CL / 10) ∧
    (calculate_dimensions designSpecsDefault opC3w).w_required
      = some (2 * np_pi * designSpecsDefault.BW_MIN * designSpecsDefault.CL / 10 / 50) ∧
    (calculate_dimensions designSpecsDefault opC3w).expected_gain = opC3w.gain ∧
    (calculate_dimensions designSpecsDefault opC3w).ft_margin
      = some (1000000000 / designSpecsDefault.BW_MIN) :=
  c3_dimension_synthesis designSpecsDefault opC3w 10 50 1000000000
    rfl (by decide) rfl (by decide) rfl (by decide)

/-- C2: for every lookup table, selected length index and target gm/ID,
bias selection returns the Vgs-axis index minimizing the absolute
difference between gm/ID and the target over admissible samples only
(finite and strictly positive gm/ID), ties broken by first occurrence
along the Vgs axis (any earlier admissible index has strictly larger
distance). Stated under the hypothesis that some admissible sample exists
(otherwise the numpy argmin raises). -/
theorem c2_bias_selection (tbl : MosTable) (L_idx : ℕ) (target : ℚ)
    (h : ∃ i, i < (tbl.gmid.getD L_idx []).length ∧
        opValid ((tbl.gmid.getD L_idx []).getD i none) = true) :
    ∃ op, find_operating_point tbl L_idx target = some op ∧
      op.vgs_idx < (tbl.gmid.getD L_idx []).length ∧
      opValid ((tbl.gmid.getD L_idx []).getD op.vgs_idx none) = true ∧
      (∀ j, j < (tbl.gmid.getD L_idx []).length →
        opValid ((tbl.gmid.getD L_idx []).getD j none) = true →
        qabs (sval ((tbl.gmid.getD L_idx []).getD op.vgs_idx none) - target)
          ≤ qabs (sval ((tbl.gmid.getD L_idx []).getD j none) - target)) ∧
      (∀ j, j < op.vgs_idx →
        opValid ((tbl.gmid.getD L_idx []).getD j none) = true →
        qabs (sval ((tbl.gmid.getD L_idx []).getD op.vgs_idx none) - target)
          < qabs (sval ((tbl.gmid.getD L_idx []).getD j none) - target)) := by
  have hne : opValidIdx (tbl.gmid.getD L_idx []) ≠ [] := by
    obtain ⟨i, h1, h2⟩ := h
    intro hnil
    have hmem : i ∈ opValidIdx (tbl.gmid.getD L_idx []) := mem_opValidIdx.mpr ⟨h1, h2⟩
    rw [hnil] at hmem
    cases hmem
  obtain ⟨op, hop⟩ := find_op_isSome target hne
  obtain ⟨hmem, -, -, -, -, -, -, -, hle, hlt⟩ := find_op_spec hop
  rw [mem_opValidIdx] at hmem
  refine ⟨op, hop, hmem.1, hmem.2, ?_, ?_⟩
  · intro j hj hv
    exact hle j (mem_opValidIdx.mpr ⟨hj, hv⟩)
  · intro j hj hv
    exact hlt j (mem_opValidIdx.mpr ⟨lt_trans hj hmem.1, hv⟩) hj

/-- Fixture for the C2 witness: a row with two inadmissible samples (a
non-finite one and a negative one) followed by admissible ones. -/
def tblC2w : MosTable :=
  { lengths := [13/100000], vgs := [3/10, 4/10, 1/2, 3/5]
  , gmid := [[none, some (-3), some 8, some 12]]
  , gain := [[some 1, some 1, some 1, some 1]]
  , id_w := [[some 1, some 1, some 1, some 1]]
  , ft := [[some 1, some 1, some 1, some 1]] }

/-- C2 witness: the bias-selection characterization evaluated on the
fixture row with target 10. -/
theorem c2_witness :
    ∃ op, find_operating_point tblC2w 0 10 = some op ∧
      op.vgs_idx < (tblC2w.gmid.getD 0 []).length ∧
      opValid ((tblC2w.gmid.getD 0 []).getD op.vgs_idx none) = true ∧
      (∀ j, j < (tblC2w.gmid.getD 0 []).length →
        opValid ((tblC2w.gmid.getD 0 []).getD j none) = true →
        qabs (sval ((tblC2w.gmid.getD 0 []).getD op.vgs_idx none) - 10)
          ≤ qabs (sval ((tblC2w.gmid.getD 0 []).getD j none) - 10)) ∧
      (∀ j, j < op.vgs_idx →
        opValid ((tblC2w.gmid.getD 0 []).getD j none) = true →
        qabs (sval ((tblC2w.gmid.getD 0 []).getD op.vgs_idx none) - 10)
          < qabs (sval ((tblC2w.gmid.getD 0 []).getD j none) - 10)) :=
  c2_bias_selection tblC2w 0 10 ⟨2, by decide, by decide⟩

/-- C10: whenever the selected length row has at least one admissible
gm/ID sample, `find_operating_point` returns a record all of whose derived
quantities are read at the one returned Vgs index of that same length row
(one coherent grid coordinate), and whose gm/ID is finite and strictly
positive. -/
theorem c10_operating_point_coherence (tbl : MosTable) (L_idx : ℕ) (target : ℚ)
    (h : ∃ i, i < (tbl.gmid.getD L_idx []).length ∧
        opValid ((tbl.gmid.getD L_idx []).getD i none) = true) :
    ∃ op, find_operating_point tbl L_idx target = some op ∧
      op.L_idx = L_idx ∧
      op.L = tbl.lengths.getD L_idx 0 ∧
      op.VGS = tbl.vgs.getD op.vgs_idx 0 ∧
      op.gmid = (tbl.gmid.getD L_idx []).getD op.vgs_idx none ∧
      op.gain = (tbl.gain.getD L_idx []).getD op.vgs_idx none ∧
      op.id_w = (tbl.id_w.getD L_idx []).getD op.vgs_idx none ∧
      op.ft = (tbl.ft.getD L_idx []).getD op.vgs_idx none ∧
      ∃ g, op.gmid = some g ∧ 0 < g := by
  have hne : opValidIdx (tbl.gmid.getD L_idx []) ≠ [] := by
    obtain ⟨i, h1, h2⟩ := h
    intro hnil
    have hmem : i ∈ opValidIdx (tbl.gmid.getD L_idx []) := mem_opValidIdx.mpr ⟨h1, h2⟩
    rw [hnil] at hmem
    cases hmem
  obtain ⟨op, hop⟩ := find_op_isSome target hne
  obtain ⟨hmem, hL, hLi, hV, hg, hga, hw, hf, -, -⟩ := find_op_spec hop
  refine ⟨op, hop, hLi, hL, hV, hg, hga, hw, hf, ?_⟩
  rw [mem_opValidIdx] at hmem
  obtain ⟨g, hgv, hgp⟩ := opValid_iff.mp hmem.2
  refine ⟨g, ?_, hgp⟩
  rw [hg, hgv]

/-- Fixture for the C10 witness. -/
def tblC10w : MosTable :=
  { lengths := [13/100000], vgs := [3/10, 4/10]
  , gmid := [[none, some 9]]
  , gain := [[some 20, some 25]]
  , id_w := [[some 40, some 45]]
  , ft := [[some 2, some 3]] }

/-- C10 witness: the coherence statement evaluated on a concrete table. -/
theorem c10_witness :
    ∃ op, find_operating_point tblC10w 0 10 = some op ∧
      op.L_idx = 0 ∧
      op.L = tblC10w.lengths.getD 0 0 ∧
      op.VGS = tblC10w.vgs.getD op.vgs_idx 0 ∧
      op.gmid = (tblC10w.gmid.getD 0 []).getD op.vgs_idx none ∧
      op.gain = (tblC10w.gain.getD 0 []).getD op.vgs_idx none ∧
      op.id_w = (tblC10w.id_w.getD 0 []).getD op.vgs_idx none ∧
      op.ft = (tblC10w.ft.getD 0 []).getD op.vgs_idx none ∧
      ∃ g, op.gmid = some g ∧ 0 < g :=
  c10_operating_point_coherence tblC10w 0 10 ⟨1, by decide, by decide⟩

/-- C5: whenever no length's reference-point gain meets the target gain
floor (and the length axis is nonempty, as the sweep invariant guarantees),
length selection does not fail: it returns the length holding the globally
maximum per-length gain together with its index, and the justification is
the fallback variant, distinguishable from every requirement-met variant. -/
theorem c5_fallback (tbl : MosTable) (target : ℚ)
    (hne : tbl.lengths ≠ [])
    (hfail : ∀ g ∈ (analyze_gain_vs_length tbl).gain_at_gmid_10, g < target) :
    ∃ idx, select_optimal_length tbl target =
        some (tbl.lengths.getD idx 0, idx,
          Justification.fallback target (tbl.lengths.getD idx 0)) ∧
      idx < tbl.lengths.length ∧
      (∀ i, i < tbl.lengths.length →
        (analyze_gain_vs_length tbl).max_gains.getD i 0
          ≤ (analyze_gain_vs_length tbl).max_gains.getD idx 0) ∧
      (∀ L2 g2 t2, (Justification.fallback target (tbl.lengths.getD idx 0) : Justification)
          ≠ Justification.met L2 g2 t2) := by
  have hsuit : suitableList tbl target = [] := by
    rw [List.eq_nil_iff_forall_not_mem]
    intro x hx
    obtain ⟨L, i, g⟩ := x
    rw [mem_suitableList] at hx
    obtain ⟨hL, hg, ht⟩ := hx
    have hmemg : g ∈ (analyze_gain_vs_length tbl).gain_at_gmid_10 :=
      List.mem_iff_getElem?.mpr ⟨i, hg⟩
    exact absurd ht (not_le.mpr (hfail g hmemg))
  have hmg : (analyze_gain_vs_length tbl).max_gains ≠ [] := by
    intro hcon
    have hlen := max_gains_length tbl
    rw [hcon] at hlen
    exact hne (List.eq_nil_of_length_eq_zero hlen.symm)
  have henum : (analyze_gain_vs_length tbl).max_gains.enum ≠ [] := by
    intro hcon
    exact hmg (List.enum_eq_nil.mp hcon)
  obtain ⟨bp, hbp⟩ := argmaxList_isSome henum
  obtain ⟨hbmem, hbmax⟩ := argmaxList_spec hbp
  rw [List.mem_enum_iff_getElem?] at hbmem
  have hblt : bp.1 < (analyze_gain_vs_length tbl).max_gains.length := by
    rcases List.getElem?_eq_some.mp hbmem with ⟨hh, -⟩
    exact hh
  have hbltl : bp.1 < tbl.lengths.length := by
    rw [← max_gains_length tbl]
    exact hblt
  have hsel : select_optimal_length tbl target =
      some (tbl.lengths.getD bp.1 0, bp.1,
        Justification.fallback target (tbl.lengths.getD bp.1 0)) := by
    unfold select_optimal_length
    rw [hsuit, hbp]
    rfl
  refine ⟨bp.1, hsel, hbltl, ?_, ?_⟩
  · intro i hi
    have hilt : i < (analyze_gain_vs_length tbl).max_gains.length := by
      rw [max_gains_length tbl]
      exact hi
    have hsome : (analyze_gain_vs_length tbl).max_gains[i]?
        = some ((analyze_gain_vs_length tbl).max_gains.getD i 0) := by
      simp [List.getD_eq_getElem?_getD, List.getElem?_eq_getElem hilt]
    have hmemi : (i, (analyze_gain_vs_length tbl).max_gains.getD i 0)
        ∈ (analyze_gain_vs_length tbl).max_gains.enum := by
      rw [List.mem_enum_iff_getElem?]
      exact hsome
    have hup := hbmax _ hmemi
    have hbd : (analyze_gain_vs_length tbl).max_gains.getD bp.1 0 = bp.2 := by
      simp [List.getD_eq_getElem?_getD, hbmem]
    rw [hbd]
    exact hup
  · intro L2 g2 t2 hcon
    exact Justification.noConfusion hcon

/-- Fixture for the C5 witness: two lengths, neither meeting the floor;
the second holds the larger maximum gain. -/
def tblC5w : MosTable :=
  { lengths := [13/100000, 45/100000], vgs := [3/10]
  , gmid := [[some 10], [some 10]]
  , gain := [[some 5], [some 7]]
  , id_w := [[some 1], [some 1]]
  , ft := [[some 1], [some 1]] }

/-- Helper evaluation for the C5 witness fixture. -/
theorem gain_at_tblC5w :
    (analyze_gain_vs_length tblC5w).gain_at_gmid_10 = [5, 7] := by
  norm_num [analyze_gain_vs_length, tblC5w, gainAtRefRow, refIdxRow, reference_gmid,
    distPairs, validIdx, rowValid, argminList, argminAux, qabs, sval, gmidRow, gainRow,
    List.filter, List.range, List.range.loop]

/-- C5 witness: fallback selection on the fixture with an unmeetable floor. -/
theorem c5_witness :
    ∃ idx, select_optimal_length tblC5w 1000 =
        some (tblC5w.lengths.getD idx 0, idx,
          Justification.fallback 1000 (tblC5w.lengths.getD idx 0)) ∧
      idx < tblC5w.lengths.length ∧
      (∀ i, i < tblC5w.lengths.length →
        (analyze_gain_vs_length tblC5w).max_gains.getD i 0
          ≤ (analyze_gain_vs_length tblC5w).max_gains.getD idx 0) ∧
      (∀ L2 g2 t2, (Justification.fallback 1000 (tblC5w.lengths.getD idx 0) : Justification)
          ≠ Justification.met L2 g2 t2) :=
  c5_fallback tblC5w 1000 (by decide) (by rw [gain_at_tblC5w]; decide)

/-- Transitivity of the boolean length-key comparison used by the
stable sort in `select_optimal_length`. -/
theorem leKey_trans : ∀ (a b c : ℚ × ℕ × ℚ),
    (fun x y : ℚ × ℕ × ℚ => decide (x.1 ≤ y.1)) a b = true →
    (fun x y : ℚ × ℕ × ℚ => decide (x.1 ≤ y.1)) b c = true →
    (fun x y : ℚ × ℕ × ℚ => decide (x.1 ≤ y.1)) a c = true := by
  intro a b c hab hbc
  simp only [decide_eq_true_iff] at hab hbc ⊢
  exact le_trans hab hbc

/-- Totality of the boolean length-key comparison. -/
theorem leKey_total : ∀ (a b : ℚ × ℕ × ℚ),
    ((fun x y : ℚ × ℕ × ℚ => decide (x.1 ≤ y.1)) a b
      || (fun x y : ℚ × ℕ × ℚ => decide (x.1 ≤ y.1)) b a) = true := by
  intro a b
  simp only [Bool.or_eq_true, decide_eq_true_iff]
  exact le_total a.1 b.1

/-- C1: the length-selection step evaluates, for every length with at
least one admissible sample, the gain at an admissible Vgs index whose
gm/ID is nearest by absolute difference to the fixed reference value
10 S/A (the argmin ranging over the admissible samples, per the validity
filter in the source), and whenever at least one length's recorded
reference-point gain meets the target gain floor, `select_optimal_length`
returns the smallest such length together with its index. -/
theorem c1_length_selection (tbl : MosTable) (target : ℚ) :
    (reference_gmid = 10 ∧
      ∀ l, l < tbl.lengths.length →
        validIdx (gmidRow tbl l) (gainRow tbl l) ≠ [] →
        ∃ j ∈ validIdx (gmidRow tbl l) (gainRow tbl l),
          (analyze_gain_vs_length tbl).gain_at_gmid_10[l]? =
            some (sval ((gainRow tbl l).getD j none)) ∧
          ∀ i ∈ validIdx (gmidRow tbl l) (gainRow tbl l),
            qabs (sval ((gmidRow tbl l).getD j none) - reference_gmid)
              ≤ qabs (sval ((gmidRow tbl l).getD i none) - reference_gmid)) ∧
    ((∃ g ∈ (analyze_gain_vs_length tbl).gain_at_gmid_10, target ≤ g) →
      ∃ L idx just, select_optimal_length tbl target = some (L, idx, just) ∧
        idx < tbl.lengths.length ∧
        tbl.lengths[idx]? = some L ∧
        (∃ g, (analyze_gain_vs_length tbl).gain_at_gmid_10[idx]? = some g ∧ target ≤ g) ∧
        (∀ (i : ℕ) (g L2 : ℚ), (analyze_gain_vs_length tbl).gain_at_gmid_10[i]? = some g →
          target ≤ g → tbl.lengths[i]? = some L2 → L ≤ L2)) := by
  constructor
  · refine ⟨rfl, ?_⟩
    intro l hl hv
    obtain ⟨j, hj⟩ := refIdxRow_isSome hv reference_gmid
    obtain ⟨hjm, hjle, -⟩ := refIdxRow_spec hj
    refine ⟨j, hjm, ?_, hjle⟩
    rw [gain_at_getElem? hl, gainAtRefRow_eq_of_some hj]
  · intro hex
    obtain ⟨g0, hg0mem, hg0t⟩ := hex
    obtain ⟨i0, hi0⟩ := List.mem_iff_getElem?.mp hg0mem
    have hi0lt : i0 < (analyze_gain_vs_length tbl).gain_at_gmid_10.length := by
      rcases List.getElem?_eq_some.mp hi0 with ⟨hh, -⟩
      exact hh
    have hi0ltl : i0 < tbl.lengths.length := by
      rw [← gain_at_length tbl]
      exact hi0lt
    have hL0 : tbl.lengths[i0]? = some (tbl.lengths.getD i0 0) := by
      simp [List.getD_eq_getElem?_getD, List.getElem?_eq_getElem hi0ltl]
    have hs0 : (tbl.lengths.getD i0 0, i0, g0) ∈ suitableList tbl target :=
      mem_suitableList.mpr ⟨hL0, hi0, hg0t⟩
    cases hsu : suitableList tbl target with
    | nil =>
      rw [hsu] at hs0
      cases hs0
    | cons s rest =>
      have hmsne : (s :: rest).mergeSort (fun x y => decide (x.1 ≤ y.1)) ≠ [] := by
        intro hcon
        have hlen := congrArg List.length hcon
        rw [List.length_mergeSort] at hlen
        simp at hlen
      cases hms : (s :: rest).mergeSort (fun x y => decide (x.1 ≤ y.1)) with
      | nil => exact absurd hms hmsne
      | cons q tail =>
        have hsel : select_optimal_length tbl target
            = some (q.1, q.2.1, Justification.met q.1 q.2.2 target) := by
          simp only [select_optimal_length, hsu, hms]
        have hqms : q ∈ (s :: rest).mergeSort (fun x y => decide (x.1 ≤ y.1)) := by
          rw [hms]
          exact List.mem_cons_self q tail
        have hqmem : q ∈ suitableList tbl target := by
          rw [hsu]
          exact List.mem_mergeSort.mp hqms
        have hsorted := List.sorted_mergeSort leKey_trans leKey_total (s :: rest)
        rw [hms] at hsorted
        obtain ⟨Lq, idxq, gq⟩ := q
        obtain ⟨hLq, hgq, htq⟩ := mem_suitableList.mp hqmem
        have hidxlt : idxq < tbl.lengths.length := by
          rcases List.getElem?_eq_some.mp hLq with ⟨hh, -⟩
          exact hh
        refine ⟨Lq, idxq, Justification.met Lq gq target, hsel, hidxlt, hLq,
          ⟨gq, hgq, htq⟩, ?_⟩
        intro i g L2 hgi hti hLi
        have hmem2 : (L2, i, g) ∈ suitableList tbl target :=
          mem_suitableList.mpr ⟨hLi, hgi, hti⟩
        rw [hsu] at hmem2
        have hmem3 : (L2, i, g) ∈ (s :: rest).mergeSort (fun x y => decide (x.1 ≤ y.1)) :=
          List.mem_mergeSort.mpr hmem2
        rw [hms] at hmem3
        rcases List.mem_cons.mp hmem3 with heq | htail
        · injection heq with h1 h2
          rw [h1]
        · have hd := (List.pairwise_cons.mp hsorted).1 _ htail
          exact of_decide_eq_true hd

/-- Fixture for the C1 witness: two lengths in descending numeric order,
both meeting the floor, so the sort must pick the second (smaller) one. -/
def tblC1w : MosTable :=
  { lengths := [2/10, 1/10], vgs := [3/10]
  , gmid := [[some 10], [some 10]]
  , gain := [[some 6], [some 8]]
  , id_w := [[some 1], [some 1]]
  , ft := [[some 1], [some 1]] }

/-- Helper evaluation for the C1 witness fixture. -/
theorem gain_at_tblC1w :
    (analyze_gain_vs_length tblC1w).gain_at_gmid_10 = [6, 8] := by
  norm_num [analyze_gain_vs_length, tblC1w, gainAtRefRow, refIdxRow, reference_gmid,
    distPairs, validIdx, rowValid, argminList, argminAux, qabs, sval, gmidRow, gainRow,
    List.filter, List.range, List.range.loop]

/-- C1 witness: both parts of the length-selection characterization
evaluated on the fixture with floor 5. -/
theorem c1_witness :
    (∃ j ∈ validIdx (gmidRow tblC1w 0) (gainRow tblC1w 0),
      (analyze_gain_vs_length tblC1w).gain_at_gmid_10[0]? =
        some (sval ((gainRow tblC1w 0).getD j none)) ∧
      ∀ i ∈ validIdx (gmidRow tblC1w 0) (gainRow tblC1w 0),
        qabs (sval ((gmidRow tblC1w 0).getD j none) - reference_gmid)
          ≤ qabs (sval ((gmidRow tblC1w 0).getD i none) - reference_gmid)) ∧
    (∃ L idx just, select_optimal_length tblC1w 5 = some (L, idx, just) ∧
      idx < tblC1w.lengths.length ∧
      tblC1w.lengths[idx]? = some L ∧
      (∃ g, (analyze_gain_vs_length tblC1w).gain_at_gmid_10[idx]? = some g ∧ 5 ≤ g) ∧
      (∀ (i : ℕ) (g L2 : ℚ), (analyze_gain_vs_length tblC1w).gain_at_gmid_10[i]? = some g →
        5 ≤ g → tblC1w.lengths[i]? = some L2 → L ≤ L2)) :=
  ⟨(c1_length_selection tblC1w 5).1.2 0 (by decide) (by decide),
   (c1_length_selection tblC1w 5).2 (by rw [gain_at_tblC1w]; decide)⟩

/-- Fixture for the C6 counterexample: a finite but negative gm/ID sample
paired with an admissible gain, which passes the analyze-step mask. -/
def tblC6 : MosTable :=
  { lengths := [13/100000], vgs := [3/10]
  , gmid := [[some (-1)]], gain := [[some 5]], id_w := [[some 1]], ft := [[some 1]] }

/-- C6 counterexample: the argmin selecting the reference-gm/ID index in
`analyze_gain_vs_length` indexes a sample whose gm/ID is negative — the
mask requires gm/ID finiteness but positivity only of the gain — so not
every sample such a reduction indexes satisfies the admissibility
predicate (finite AND strictly positive). -/
theorem c6_counterexample :
    refIdxRow (gmidRow tblC6 0) (gainRow tblC6 0) reference_gmid = some 0 ∧
    (gmidRow tblC6 0).getD 0 none = some (-1) ∧
    ¬ (0 < (-1 : ℚ)) := by
  refine ⟨?_, by decide, by decide⟩
  norm_num [refIdxRow, reference_gmid, distPairs, validIdx, rowValid, argminList,
    argminAux, qabs, sval, gmidRow, gainRow, tblC6, List.filter, List.range,
    List.range.loop]

/-- C6 amended: the per-length maximum gain is always an admissible (finite,
strictly positive) gain sample, and every extremum that
`extract_chart_statistics` reports is an admissible sample of the reduced
array; the reference-gm/ID argmin in `analyze_gain_vs_length` indexes a
sample whose gm/ID is finite and whose gain is admissible, but that gm/ID
value need not be strictly positive (see the counterexample). -/
theorem c6_reduction_admissibility (tbl : MosTable) (l : ℕ) :
    (l < tbl.lengths.length →
      validIdx (gmidRow tbl l) (gainRow tbl l) ≠ [] →
      ∃ m, (analyze_gain_vs_length tbl).max_gains[l]? = some m ∧ 0 < m ∧
        ∃ j ∈ validIdx (gmidRow tbl l) (gainRow tbl l),
          (gainRow tbl l).getD j none = some m) ∧
    (∀ j, refIdxRow (gmidRow tbl l) (gainRow tbl l) reference_gmid = some j →
      ((gmidRow tbl l).getD j none).isSome = true ∧
      (∃ a, (gainRow tbl l).getD j none = some a ∧ 0 < a) ∧
      (l < tbl.lengths.length →
        (analyze_gain_vs_length tbl).gain_at_gmid_10[l]? =
          some (sval ((gainRow tbl l).getD j none)))) ∧
    (∀ m : ℚ,
      ((extract_chart_statistics tbl).gmid_min = some m →
        some m ∈ tbl.gmid.flatten ∧ 0 < m) ∧
      ((extract_chart_statistics tbl).gmid_max = some m →
        some m ∈ tbl.gmid.flatten ∧ 0 < m) ∧
      ((extract_chart_statistics tbl).ft_max = some m →
        some m ∈ tbl.ft.flatten ∧ 0 < m) ∧
      ((extract_chart_statistics tbl).gain_max = some m →
        some m ∈ tbl.gain.flatten ∧ 0 < m)) := by
  refine ⟨?_, ?_, ?_⟩
  · intro hl hv
    obtain ⟨⟨j, hj, hjeq⟩, -⟩ := maxGainRow_spec hv
    obtain ⟨-, av, hav, hpos⟩ := rowValid_iff.mp (mem_validIdx.mp hj).2
    have hsv : sval ((gainRow tbl l).getD j none) = av := by
      rw [hav]
      rfl
    refine ⟨maxGainRow (gmidRow tbl l) (gainRow tbl l), max_gains_getElem? hl, ?_, j, hj, ?_⟩
    · rw [hjeq, hsv]
      exact hpos
    · rw [hav, hjeq, hsv]
  · intro j hj
    obtain ⟨hjm, -, -⟩ := refIdxRow_spec hj
    obtain ⟨⟨gv, hgv⟩, av, hav, hpos⟩ := rowValid_iff.mp (mem_validIdx.mp hjm).2
    refine ⟨?_, ⟨av, hav, hpos⟩, ?_⟩
    · rw [hgv]
      rfl
    · intro hl
      rw [gain_at_getElem? hl, gainAtRefRow_eq_of_some hj]
  · intro m
    refine ⟨?_, ?_, ?_, ?_⟩
    · intro hm
      obtain ⟨hmem, -⟩ := min?_spec hm
      exact mem_admissibleVals.mp hmem
    · intro hm
      obtain ⟨hmem, -⟩ := max?_spec hm
      exact mem_admissibleVals.mp hmem
    · intro hm
      obtain ⟨hmem, -⟩ := max?_spec hm
      exact mem_admissibleVals.mp hmem
    · intro hm
      obtain ⟨hmem, -⟩ := max?_spec hm
      exact mem_admissibleVals.mp hmem

/-- Fixture for the C6 witness: fully admissible single-sample arrays. -/
def tblC6w : MosTable :=
  { lengths := [13/100000], vgs := [3/10]
  , gmid := [[some 5]], gain := [[some 3]], id_w := [[some 2]], ft := [[some 7]] }

/-- Helper evaluation for the C6 witness fixture. -/
theorem refIdx_tblC6w :
    refIdxRow (gmidRow tblC6w 0) (gainRow tblC6w 0) reference_gmid = some 0 := by
  norm_num [refIdxRow, reference_gmid, distPairs, validIdx, rowValid, argminList,
    argminAux, qabs, sval, gmidRow, gainRow, tblC6w, List.filter, List.range,
    List.range.loop]

/-- C6 witness: the amended reduction-admissibility statement evaluated on
the concrete fixture. -/
theorem c6_witness :
    (∃ m, (analyze_gain_vs_length tblC6w).max_gains[0]? = some m ∧ 0 < m ∧
      ∃ j ∈ validIdx (gmidRow tblC6w 0) (gainRow tblC6w 0),
        (gainRow tblC6w 0).getD j none = some m) ∧
    (((gmidRow tblC6w 0).getD 0 none).isSome = true ∧
      (∃ a, (gainRow tblC6w 0).getD 0 none = some a ∧ 0 < a) ∧
      (0 < tblC6w.lengths.length →
        (analyze_gain_vs_length tblC6w).gain_at_gmid_10[0]? =
          some (sval ((gainRow tblC6w 0).getD 0 none)))) ∧
    (some 5 ∈ tblC6w.gmid.flatten ∧ 0 < (5:ℚ)) :=
  ⟨(c6_reduction_admissibility tblC6w 0).1 (by decide) (by decide),
   (c6_reduction_admissibility tblC6w 0).2.1 0 refIdx_tblC6w,
   ((c6_reduction_admissibility tblC6w 0).2.2 5).1 (by decide)⟩

end IhpGmid
